import Mathlib

/-!
Verification of the PAC-RF telemetry ingestion layer: a shallow embedding of
`src/common/bit_parser.c`, `src/common/queue_manager.c` and
`src/common/nmea.c`, with theorems settling the specification claims.

Byte buffers are modelled as `List Nat` (each entry a byte value), C strings
as `List Char` (the characters before the terminating NUL; all inputs of
interest are ASCII, and XOR accumulation reduces characters mod 256 exactly
as the C cast to `unsigned char` does).
-/

namespace PacRF

/-! ## BitParser (`src/common/bit_parser.c`) -/

/-- The `BitParser` struct: a read-only byte buffer, its exact length in
bits, and the current bit cursor. -/
structure BitParser where
  data : List Nat
  bit_length : Nat
  bit_pos : Nat
deriving Repr, DecidableEq

/-- `bit_parser_init`: wraps a buffer, cursor at 0. -/
def bit_parser_init (data : List Nat) (bit_length : Nat) : BitParser :=
  { data := data, bit_length := bit_length, bit_pos := 0 }

/-- Bit at absolute bit index `i` of the buffer:
`(data[i/8] >> (7 - i % 8)) & 0x01` (MSB-first indexing), as in the body of
the read loop of `bit_parser_read`. -/
def bitAt (data : List Nat) (i : Nat) : Nat :=
  ((data.getD (i / 8) 0) >>> (7 - i % 8)) &&& 1

/-- The accumulation loop of `bit_parser_read`: starting at absolute bit
position `p` with accumulator `value`, consume `k` bits, each step doing
`value = (value << 1) | bit` on a `uint32_t` (hence the reduction mod
`2^32`). -/
def readLoop (data : List Nat) : Nat → Nat → Nat → Nat
  | _, 0, value => value
  | p, k + 1, value =>
      readLoop data (p + 1) k (((value <<< 1) ||| bitAt data p) % 4294967296)

/-- `bit_parser_read`: returns the extracted value and the updated parser
(the C function mutates `parser` in place and returns the value). Error
paths return 0 and leave the parser untouched. -/
def bit_parser_read (parser : BitParser) (num_bits : Nat) : Nat × BitParser :=
  if num_bits = 0 ∨ num_bits > 32 then
    (0, parser)
  else if parser.bit_pos + num_bits > parser.bit_length then
    (0, parser)
  else
    (readLoop parser.data parser.bit_pos num_bits 0,
     { parser with bit_pos := parser.bit_pos + num_bits })

/-- `bit_parser_skip`: advances the cursor, clamping at `bit_length`. -/
def bit_parser_skip (parser : BitParser) (num_bits : Nat) : BitParser :=
  if parser.bit_pos + num_bits ≤ parser.bit_length then
    { parser with bit_pos := parser.bit_pos + num_bits }
  else
    { parser with bit_pos := parser.bit_length }

/-- `bit_parser_reset`: cursor back to 0. -/
def bit_parser_reset (parser : BitParser) : BitParser :=
  { parser with bit_pos := 0 }

/-! ### Lemmas about the read loop -/

theorem bitAt_le_one (data : List Nat) (i : Nat) : bitAt data i ≤ 1 := by
  have h := Nat.and_le_right (n := (data.getD (i / 8) 0) >>> (7 - i % 8)) (m := 1)
  simpa [bitAt] using h

/-- The value the claim describes: bits at absolute indices
`p, p+1, …, p+n-1`, assembled MSB-first (the first bit read is the most
significant). -/
def msbValue (data : List Nat) (p n : Nat) : Nat :=
  ∑ i ∈ Finset.range n, bitAt data (p + i) * 2 ^ (n - 1 - i)

theorem msbValue_zero (data : List Nat) (p : Nat) : msbValue data p 0 = 0 := by
  simp [msbValue]

theorem msbValue_succ (data : List Nat) (p n : Nat) :
    msbValue data p (n + 1) = bitAt data p * 2 ^ n + msbValue data (p + 1) n := by
  unfold msbValue
  rw [Finset.sum_range_succ' (fun i => bitAt data (p + i) * 2 ^ (n + 1 - 1 - i))]
  have h0 : bitAt data (p + 0) * 2 ^ (n + 1 - 1 - 0) = bitAt data p * 2 ^ n := by
    simp
  rw [h0, Nat.add_comm]
  congr 1
  refine Finset.sum_congr rfl ?_
  intro i hi
  have h1 : p + (i + 1) = p + 1 + i := by omega
  have h2 : n + 1 - 1 - (i + 1) = n - 1 - i := by omega
  rw [h1, h2]

theorem msbValue_lt (data : List Nat) (p n : Nat) : msbValue data p n < 2 ^ n := by
  induction n generalizing p with
  | zero => simp [msbValue]
  | succ n ih =>
      rw [msbValue_succ]
      have hb := bitAt_le_one data p
      have h1 : bitAt data p * 2 ^ n ≤ 2 ^ n := by
        calc bitAt data p * 2 ^ n ≤ 1 * 2 ^ n := Nat.mul_le_mul_right _ hb
        _ = 2 ^ n := by ring
      have h2 := ih (p + 1)
      have : 2 ^ (n + 1) = 2 ^ n + 2 ^ n := by ring
      omega

theorem lor_shift_eq_add (v b : Nat) (hb : b ≤ 1) : (v <<< 1) ||| b = 2 * v + b := by
  have hv : v <<< 1 = 2 * v := by
    rw [Nat.shiftLeft_eq]
    ring
  interval_cases b
  · simp [hv]
  · rw [hv]
    have h := Nat.lor_bit false v true 0
    simpa [Nat.bit_val] using h

theorem readLoop_spec (data : List Nat) :
    ∀ (k p v : Nat), v * 2 ^ k + msbValue data p k < 4294967296 →
      readLoop data p k v = v * 2 ^ k + msbValue data p k := by
  intro k
  induction k with
  | zero => intro p v _; simp [readLoop, msbValue]
  | succ k ih =>
      intro p v hlt
      rw [readLoop]
      have hb := bitAt_le_one data p
      have hstep : ((v <<< 1) ||| bitAt data p) % 4294967296
          = 2 * v + bitAt data p := by
        rw [lor_shift_eq_add _ _ hb]
        apply Nat.mod_eq_of_lt
        have hmsb := msbValue_succ data p k
        have hpow : 2 ^ (k + 1) = 2 * 2 ^ k := by ring
        nlinarith [msbValue_lt data (p + 1) k, Nat.pos_pow_of_pos k (show 0 < 2 by norm_num),
          Nat.zero_le (msbValue data (p + 1) k)]
      rw [hstep, ih]
      · rw [msbValue_succ]
        ring
      · have hmsb := msbValue_succ data p k
        have hpow : 2 ^ (k + 1) = 2 * 2 ^ k := by ring
        nlinarith [Nat.zero_le (bitAt data p * 2 ^ k)]

/-- C1: for a parser over buffer `B` with bit length `L` and cursor `pos`,
and `num_bits ∈ [1,32]` with `pos + num_bits ≤ L`, `bit_parser_read`
returns the 32-bit value assembled MSB-first from bits
`pos … pos+num_bits-1` (bit `i` being bit `7 - i % 8` of byte `i / 8`),
and the cursor afterwards equals `pos + num_bits`. -/
theorem bit_parser_read_correct (parser : BitParser) (num_bits : Nat)
    (h1 : 1 ≤ num_bits) (h2 : num_bits ≤ 32)
    (h3 : parser.bit_pos + num_bits ≤ parser.bit_length) :
    bit_parser_read parser num_bits =
      (∑ i ∈ Finset.range num_bits,
          bitAt parser.data (parser.bit_pos + i) * 2 ^ (num_bits - 1 - i),
       { parser with bit_pos := parser.bit_pos + num_bits }) := by
  unfold bit_parser_read
  rw [if_neg (by omega), if_neg (by omega)]
  have hval : readLoop parser.data parser.bit_pos num_bits 0
      = msbValue parser.data parser.bit_pos num_bits := by
    rw [readLoop_spec]
    · ring
    · have h := msbValue_lt parser.data parser.bit_pos num_bits
      have hle : (2 : Nat) ^ num_bits ≤ 2 ^ 32 :=
        Nat.pow_le_pow_right (by norm_num) h2
      have : (2 : Nat) ^ 32 = 4294967296 := by norm_num
      omega
  rw [hval]
  rfl

/-- Witness for C1: reading 12 bits of the buffer `[0xAB, 0xCD]` starting
at cursor 0 yields `0xABC` and cursor 12. -/
theorem bit_parser_read_correct_witness :
    bit_parser_read (bit_parser_init [171, 205] 16) 12 =
      (∑ i ∈ Finset.range 12,
          bitAt (bit_parser_init [171, 205] 16).data
            ((bit_parser_init [171, 205] 16).bit_pos + i) * 2 ^ (12 - 1 - i),
       { bit_parser_init [171, 205] 16 with bit_pos := 0 + 12 }) := by
  have h := bit_parser_read_correct (bit_parser_init [171, 205] 16) 12
    (by norm_num) (by norm_num) (by norm_num [bit_parser_init])
  simpa [bit_parser_init] using h

/-- C7: `bit_parser_read` with `num_bits = 0`, `num_bits > 32`, or a read
past `bit_length` returns the sentinel 0 and leaves the parser (in
particular the cursor) unchanged. -/
theorem bit_parser_read_error (parser : BitParser) (num_bits : Nat)
    (h : num_bits = 0 ∨ num_bits > 32 ∨
         parser.bit_pos + num_bits > parser.bit_length) :
    bit_parser_read parser num_bits = (0, parser) := by
  unfold bit_parser_read
  rcases h with h | h | h
  · rw [if_pos (Or.inl h)]
  · rw [if_pos (Or.inr h)]
  · by_cases h0 : num_bits = 0 ∨ num_bits > 32
    · rw [if_pos h0]
    · rw [if_neg h0, if_pos h]

/-- Witness for C7: a 3-bit read on an 8-bit stream with cursor at 6
fails, returning 0 and leaving the cursor at 6. -/
theorem bit_parser_read_error_witness :
    bit_parser_read { data := [255], bit_length := 8, bit_pos := 6 } 3 =
      (0, { data := [255], bit_length := 8, bit_pos := 6 }) :=
  bit_parser_read_error _ 3 (by right; right; norm_num)

/-- C8: `bit_parser_skip` sets the cursor to `pos + num_bits` when that
stays within `bit_length`, and clamps it to exactly `bit_length` otherwise
(equivalently: the new cursor is `min (pos + num_bits) bit_length`); it
never fails and never leaves the cursor past `bit_length`. -/
theorem bit_parser_skip_spec (parser : BitParser) (num_bits : Nat) :
    bit_parser_skip parser num_bits =
      { parser with bit_pos := min (parser.bit_pos + num_bits) parser.bit_length } := by
  unfold bit_parser_skip
  by_cases h : parser.bit_pos + num_bits ≤ parser.bit_length
  · rw [if_pos h]
    simp [Nat.min_eq_left h]
  · rw [if_neg h]
    simp [Nat.min_eq_right (by omega : parser.bit_length ≤ parser.bit_pos + num_bits)]

/-! ## BoundedQueue (`src/common/queue_manager.c`) -/

/-- A queue slot: 256-byte payload buffer plus explicit length. -/
structure QueueItem where
  data : List Nat
  length : Nat
deriving Repr, DecidableEq, Inhabited

/-- The `Queue` struct. `items` is the backing array (length = capacity
once initialized). -/
structure Queue where
  items : List QueueItem
  capacity : Nat
  head : Nat
  tail : Nat
  count : Nat
deriving Repr, DecidableEq

/-- `queue_init`: fails on capacity 0 (the allocation-failure path is not
modelled; `malloc`'s uninitialized slots are modelled as `default`, which
no reachable read ever observes). -/
def queue_init (capacity : Nat) : Option Queue :=
  if capacity = 0 then none
  else some { items := List.replicate capacity default, capacity := capacity,
              head := 0, tail := 0, count := 0 }

/-- `queue_is_full`: `count == capacity` (for a non-null queue). -/
def queue_is_full (q : Queue) : Bool := q.count == q.capacity

/-- `queue_is_empty`: `count == 0` (for a non-null queue). -/
def queue_is_empty (q : Queue) : Bool := q.count == 0

/-- `queue_enqueue`: fails when full, else stores at `tail`, advances
`tail` modulo capacity, increments `count`. Returns the success flag and
the updated queue. -/
def queue_enqueue (q : Queue) (item : QueueItem) : Bool × Queue :=
  if queue_is_full q then (false, q)
  else (true, { q with items := q.items.set q.tail item,
                       tail := (q.tail + 1) % q.capacity,
                       count := q.count + 1 })

/-- `queue_dequeue`: fails when empty, else copies out the `head` slot,
advances `head` modulo capacity, decrements `count`. Returns the item (or
`none` on failure) and the updated queue. -/
def queue_dequeue (q : Queue) : Option QueueItem × Queue :=
  if queue_is_empty q then (none, q)
  else (some (q.items.getD q.head default),
        { q with head := (q.head + 1) % q.capacity, count := q.count - 1 })

/-- The structural invariant of an initialized queue. -/
def QueueInv (q : Queue) : Prop :=
  q.items.length = q.capacity ∧ 0 < q.capacity ∧ q.count ≤ q.capacity ∧
  q.head < q.capacity ∧ q.tail < q.capacity ∧
  q.tail = (q.head + q.count) % q.capacity

/-- States reachable from a successful `queue_init` by enqueues and
dequeues. -/
inductive Reachable : Queue → Prop
  | init (c : Nat) (q : Queue) : queue_init c = some q → Reachable q
  | enq (q : Queue) (item : QueueItem) :
      Reachable q → Reachable (queue_enqueue q item).2
  | deq (q : Queue) : Reachable q → Reachable (queue_dequeue q).2

theorem queue_init_inv (c : Nat) (q : Queue) (h : queue_init c = some q) :
    QueueInv q := by
  unfold queue_init at h
  by_cases hc : c = 0
  · rw [if_pos hc] at h; cases h
  · rw [if_neg hc] at h
    cases h
    exact ⟨by simp, Nat.pos_of_ne_zero hc, Nat.zero_le _,
      Nat.pos_of_ne_zero hc, Nat.pos_of_ne_zero hc, by simp⟩

theorem queue_enqueue_capacity (q : Queue) (item : QueueItem) :
    (queue_enqueue q item).2.capacity = q.capacity := by
  unfold queue_enqueue
  by_cases h : queue_is_full q
  · rw [if_pos h]
  · rw [if_neg h]

theorem queue_dequeue_capacity (q : Queue) :
    (queue_dequeue q).2.capacity = q.capacity := by
  unfold queue_dequeue
  by_cases h : queue_is_empty q
  · rw [if_pos h]
  · rw [if_neg h]

theorem queue_enqueue_inv (q : Queue) (item : QueueItem) (h : QueueInv q) :
    QueueInv (queue_enqueue q item).2 := by
  obtain ⟨hlen, hcap, hcnt, hhead, htail, heq⟩ := h
  unfold queue_enqueue queue_is_full
  by_cases hfull : q.count = q.capacity
  · simp only [hfull, beq_self_eq_true, if_true]
    exact ⟨hlen, hcap, by omega, hhead, htail, heq⟩
  · simp only [beq_iff_eq, hfull, if_false]
    refine ⟨?_, hcap, ?_, hhead, ?_, ?_⟩
    · show (q.items.set q.tail item).length = q.capacity
      simpa using hlen
    · show q.count + 1 ≤ q.capacity
      omega
    · show (q.tail + 1) % q.capacity < q.capacity
      exact Nat.mod_lt _ hcap
    · show (q.tail + 1) % q.capacity = (q.head + (q.count + 1)) % q.capacity
      rw [heq, Nat.mod_add_mod, Nat.add_assoc]

theorem queue_dequeue_inv (q : Queue) (h : QueueInv q) :
    QueueInv (queue_dequeue q).2 := by
  obtain ⟨hlen, hcap, hcnt, hhead, htail, heq⟩ := h
  unfold queue_dequeue queue_is_empty
  by_cases hempty : q.count = 0
  · simp only [hempty, beq_self_eq_true, if_true]
    exact ⟨hlen, hcap, by omega, hhead, htail, heq⟩
  · simp only [beq_iff_eq, hempty, if_false]
    refine ⟨hlen, hcap, ?_, ?_, htail, ?_⟩
    · show q.count - 1 ≤ q.capacity
      omega
    · show (q.head + 1) % q.capacity < q.capacity
      exact Nat.mod_lt _ hcap
    · show q.tail = ((q.head + 1) % q.capacity + (q.count - 1)) % q.capacity
      rw [Nat.mod_add_mod, heq]
      congr 1
      omega

theorem reachable_inv (q : Queue) (h : Reachable q) : QueueInv q := by
  induction h with
  | init c q hq => exact queue_init_inv c q hq
  | enq q item _ ih => exact queue_enqueue_inv q item ih
  | deq q _ ih => exact queue_dequeue_inv q ih

/-- C9: every state reachable from a successful `queue_init` satisfies
`count ≤ capacity`, `count = 0` iff `queue_is_empty`, `count = capacity`
iff `queue_is_full`, and `head`, `tail` strictly below `capacity`. -/
theorem queue_reachable_invariant (q : Queue) (h : Reachable q) :
    q.count ≤ q.capacity ∧
    (q.count = 0 ↔ queue_is_empty q = true) ∧
    (q.count = q.capacity ↔ queue_is_full q = true) ∧
    q.head < q.capacity ∧ q.tail < q.capacity := by
  obtain ⟨_, _, hcnt, hhead, htail, _⟩ := reachable_inv q h
  refine ⟨hcnt, ?_, ?_, hhead, htail⟩
  · unfold queue_is_empty; simp
  · unfold queue_is_full; simp

/-- A concrete queue for witnesses: fresh capacity-2 queue. -/
def qDemo : Queue :=
  { items := List.replicate 2 default, capacity := 2, head := 0, tail := 0,
    count := 0 }

/-- `qDemo` after one enqueue. -/
def qDemo1 : Queue := (queue_enqueue qDemo default).2

/-- Witness for C9: the invariant holds for the queue freshly initialized
with capacity 2 and one item enqueued. -/
theorem queue_reachable_invariant_witness :
    qDemo1.count ≤ qDemo1.capacity ∧
    (qDemo1.count = 0 ↔ queue_is_empty qDemo1 = true) ∧
    (qDemo1.count = qDemo1.capacity ↔ queue_is_full qDemo1 = true) ∧
    qDemo1.head < qDemo1.capacity ∧ qDemo1.tail < qDemo1.capacity :=
  queue_reachable_invariant qDemo1
    (Reachable.enq qDemo default (Reachable.init 2 qDemo (by decide)))

/-! ### C3: fill to capacity, overflow, drain to empty -/

/-- Repeated `queue_enqueue`; `none` as soon as one enqueue reports
failure. -/
def enqueueAll : Queue → List QueueItem → Option Queue
  | q, [] => some q
  | q, x :: xs =>
      let r := queue_enqueue q x
      if r.1 then enqueueAll r.2 xs else none

/-- `n` repeated `queue_dequeue`s; `none` as soon as one reports failure. -/
def dequeueAll : Queue → Nat → Option Queue
  | q, 0 => some q
  | q, n + 1 =>
      let r := queue_dequeue q
      if r.1.isSome then dequeueAll r.2 n else none

theorem queue_enqueue_success (q : Queue) (x : QueueItem)
    (h : q.count < q.capacity) :
    (queue_enqueue q x).1 = true ∧ (queue_enqueue q x).2.count = q.count + 1 := by
  unfold queue_enqueue queue_is_full
  rw [if_neg (by simp; omega)]
  exact ⟨rfl, rfl⟩

theorem queue_dequeue_success (q : Queue) (h : 0 < q.count) :
    ((queue_dequeue q).1).isSome = true ∧
    (queue_dequeue q).2.count = q.count - 1 := by
  unfold queue_dequeue queue_is_empty
  rw [if_neg (by simp; omega)]
  exact ⟨rfl, rfl⟩

theorem enqueueAll_success (xs : List QueueItem) :
    ∀ q : Queue, QueueInv q → q.count + xs.length ≤ q.capacity →
      ∃ q', enqueueAll q xs = some q' ∧ QueueInv q' ∧
        q'.count = q.count + xs.length ∧ q'.capacity = q.capacity := by
  induction xs with
  | nil => intro q hq _; exact ⟨q, rfl, hq, by simp, rfl⟩
  | cons x xs ih =>
      intro q hq hle
      have hlt : q.count < q.capacity := by
        have := xs.length; simp at hle; omega
      obtain ⟨hflag, hcount⟩ := queue_enqueue_success q x hlt
      have hinv' := queue_enqueue_inv q x hq
      have hcap' := queue_enqueue_capacity q x
      obtain ⟨q', h1, h2, h3, h4⟩ := ih (queue_enqueue q x).2 hinv'
        (by rw [hcount, hcap']; simp at hle ⊢; omega)
      refine ⟨q', ?_, h2, ?_, by rw [h4, hcap']⟩
      · show (if (queue_enqueue q x).1 = true
            then enqueueAll (queue_enqueue q x).2 xs else none) = some q'
        rw [hflag]
        simpa using h1
      · rw [h3, hcount]
        simp
        omega

theorem dequeueAll_success (n : Nat) :
    ∀ q : Queue, QueueInv q → n ≤ q.count →
      ∃ q', dequeueAll q n = some q' ∧ QueueInv q' ∧
        q'.count = q.count - n ∧ q'.capacity = q.capacity := by
  induction n with
  | zero => intro q hq _; exact ⟨q, rfl, hq, by simp, rfl⟩
  | succ n ih =>
      intro q hq hle
      obtain ⟨hflag, hcount⟩ := queue_dequeue_success q (by omega)
      have hinv' := queue_dequeue_inv q hq
      have hcap' := queue_dequeue_capacity q
      obtain ⟨q', h1, h2, h3, h4⟩ := ih (queue_dequeue q).2 hinv'
        (by rw [hcount]; omega)
      refine ⟨q', ?_, h2, ?_, by rw [h4, hcap']⟩
      · show (if ((queue_dequeue q).1).isSome = true
            then dequeueAll (queue_dequeue q).2 n else none) = some q'
        rw [hflag]
        simpa using h1
      · rw [h3, hcount]
        omega

theorem queue_init_fields (c : Nat) (q : Queue) (h : queue_init c = some q) :
    q.count = 0 ∧ q.capacity = c := by
  unfold queue_init at h
  by_cases hc : c = 0
  · rw [if_pos hc] at h; cases h
  · rw [if_neg hc] at h; cases h; exact ⟨rfl, rfl⟩

/-- C3: from a fresh queue of capacity `c > 0`, `c` enqueues all succeed,
the `(c+1)`-th enqueue fails, and `c` subsequent dequeues all succeed and
leave the queue empty. -/
theorem queue_fill_then_drain (c : Nat) (xs : List QueueItem) (y : QueueItem)
    (q0 : Queue) (hc : 0 < c) (hxs : xs.length = c)
    (hinit : queue_init c = some q0) :
    ∃ q1, enqueueAll q0 xs = some q1 ∧
      (queue_enqueue q1 y).1 = false ∧
      ∃ q2, dequeueAll q1 c = some q2 ∧ queue_is_empty q2 = true := by
  have hinv0 := queue_init_inv c q0 hinit
  obtain ⟨hcnt0, hcap0⟩ := queue_init_fields c q0 hinit
  obtain ⟨q1, h1, hinv1, hcnt1, hcap1⟩ := enqueueAll_success xs q0 hinv0
    (by rw [hcnt0, hcap0, hxs]; omega)
  have hcnt1' : q1.count = c := by rw [hcnt1, hcnt0, hxs]; omega
  have hcap1' : q1.capacity = c := by rw [hcap1, hcap0]
  refine ⟨q1, h1, ?_, ?_⟩
  · unfold queue_enqueue queue_is_full
    rw [if_pos (by simp; omega)]
  · obtain ⟨q2, h2, _, hcnt2, _⟩ := dequeueAll_success c q1 hinv1 (by omega)
    refine ⟨q2, h2, ?_⟩
    unfold queue_is_empty
    simp
    omega

/-- A fresh capacity-1 queue, as `queue_init 1` produces it. -/
def qOne : Queue :=
  { items := [default], capacity := 1, head := 0, tail := 0, count := 0 }

/-- Witness for C3 at capacity 1. -/
theorem queue_fill_then_drain_witness :
    ∃ q1, enqueueAll qOne [default] = some q1 ∧
      (queue_enqueue q1 default).1 = false ∧
      ∃ q2, dequeueAll q1 1 = some q2 ∧ queue_is_empty q2 = true :=
  queue_fill_then_drain 1 [default] default qOne (by decide) (by decide)
    (by decide)

/-! ### C4: refinement of a list-based FIFO -/

/-- Abstraction: the live contents of the circular buffer in FIFO order,
head first. -/
def absQueue (q : Queue) : List QueueItem :=
  (List.range q.count).map
    (fun i => q.items.getD ((q.head + i) % q.capacity) default)

/-- List-based FIFO model, following the spec's words: enqueue appends at
the back when below capacity, dequeue removes the front. -/
def specEnqueue (cap : Nat) (l : List QueueItem) (x : QueueItem) :
    Bool × List QueueItem :=
  if l.length = cap then (false, l) else (true, l ++ [x])

/-- Dequeue of the list-based FIFO model. -/
def specDequeue (l : List QueueItem) : Option QueueItem × List QueueItem :=
  match l with
  | [] => (none, [])
  | x :: xs => (some x, xs)

/-- One queue operation. -/
inductive QOp where
  | enq (item : QueueItem)
  | deq
deriving Repr, DecidableEq

/-- Observable result of one operation: the enqueue success flag, or the
dequeued item (`none` on dequeue failure). -/
inductive QOut where
  | enqRes (ok : Bool)
  | deqRes (item : Option QueueItem)
deriving Repr, DecidableEq

/-- Trace of the circular-buffer implementation over a list of
operations. -/
def runQueue : Queue → List QOp → List QOut
  | _, [] => []
  | q, QOp.enq x :: ops =>
      QOut.enqRes (queue_enqueue q x).1 :: runQueue (queue_enqueue q x).2 ops
  | q, QOp.deq :: ops =>
      QOut.deqRes (queue_dequeue q).1 :: runQueue (queue_dequeue q).2 ops

/-- Trace of the list-based FIFO model over a list of operations. -/
def runSpec (cap : Nat) : List QueueItem → List QOp → List QOut
  | _, [] => []
  | l, QOp.enq x :: ops =>
      QOut.enqRes (specEnqueue cap l x).1 ::
        runSpec cap (specEnqueue cap l x).2 ops
  | l, QOp.deq :: ops =>
      QOut.deqRes (specDequeue l).1 :: runSpec cap (specDequeue l).2 ops

theorem absQueue_length (q : Queue) : (absQueue q).length = q.count := by
  simp [absQueue]

theorem add_mod_ne_of_ne (cap h i j : Nat) (hi : i < cap) (hj : j < cap)
    (hne : i ≠ j) : (h + i) % cap ≠ (h + j) % cap := by
  intro hmod
  have hij : i % cap = j % cap := Nat.ModEq.add_left_cancel' h hmod
  rw [Nat.mod_eq_of_lt hi, Nat.mod_eq_of_lt hj] at hij
  exact hne hij

theorem absQueue_set_last (items : List QueueItem) (cap hd count tail : Nat)
    (x : QueueItem) (hlen : items.length = cap) (hhead : hd < cap)
    (hcnt : count < cap) (heq : tail = (hd + count) % cap) :
    (List.range (count + 1)).map
        (fun i => (items.set tail x).getD ((hd + i) % cap) default)
      = (List.range count).map
          (fun i => items.getD ((hd + i) % cap) default) ++ [x] := by
  rw [List.range_succ, List.map_append, List.map_cons, List.map_nil]
  congr 1
  · apply List.map_congr_left
    intro i hi
    have hilt : i < count := List.mem_range.mp hi
    have hne : tail ≠ (hd + i) % cap := by
      rw [heq]
      exact fun hmod => add_mod_ne_of_ne cap hd i count
        (by omega) (by omega) (by omega) hmod.symm
    rw [List.getD_eq_getElem?_getD, List.getD_eq_getElem?_getD,
      List.getElem?_set_ne hne]
  · have htail' : (hd + count) % cap = tail := heq.symm
    rw [htail', List.getD_eq_getElem?_getD,
      List.getElem?_set_self (by rw [hlen, heq]; exact Nat.mod_lt _ (by omega))]
    rfl

theorem absQueue_drop_head (items : List QueueItem) (cap hd m : Nat) :
    (List.range m).map
        (fun i => items.getD (((hd + 1) % cap + i) % cap) default)
      = (List.range m).map
          (fun i => items.getD ((hd + (i + 1)) % cap) default) := by
  apply List.map_congr_left
  intro i _
  rw [Nat.mod_add_mod]
  congr 2
  omega

theorem queue_enqueue_abs (q : Queue) (x : QueueItem) (h : QueueInv q) :
    (queue_enqueue q x).1 = (specEnqueue q.capacity (absQueue q) x).1 ∧
    absQueue (queue_enqueue q x).2 = (specEnqueue q.capacity (absQueue q) x).2 := by
  obtain ⟨hlen, hcap, hcnt, hhead, htail, heq⟩ := h
  by_cases hfull : q.count = q.capacity
  · have h1 : queue_is_full q = true := by simp [queue_is_full, hfull]
    unfold queue_enqueue specEnqueue
    rw [if_pos (show queue_is_full q = true from h1),
      if_pos (show (absQueue q).length = q.capacity by
        rw [absQueue_length]; exact hfull)]
    exact ⟨rfl, rfl⟩
  · have h1 : ¬ queue_is_full q = true := by simp [queue_is_full]; exact hfull
    unfold queue_enqueue specEnqueue
    rw [if_neg h1,
      if_neg (show ¬ (absQueue q).length = q.capacity by
        rw [absQueue_length]; exact hfull)]
    refine ⟨rfl, ?_⟩
    unfold absQueue
    exact absQueue_set_last q.items q.capacity q.head q.count q.tail x hlen
      hhead (by omega) heq

theorem queue_dequeue_abs (q : Queue) (h : QueueInv q) :
    (queue_dequeue q).1 = (specDequeue (absQueue q)).1 ∧
    absQueue (queue_dequeue q).2 = (specDequeue (absQueue q)).2 := by
  obtain ⟨hlen, hcap, hcnt, hhead, htail, heq⟩ := h
  by_cases hempty : q.count = 0
  · have h1 : queue_is_empty q = true := by simp [queue_is_empty, hempty]
    have habs : absQueue q = [] := by simp [absQueue, hempty]
    unfold queue_dequeue
    rw [if_pos h1, habs]
    exact ⟨rfl, rfl⟩
  · obtain ⟨m, hm⟩ : ∃ m, q.count = m + 1 := ⟨q.count - 1, by omega⟩
    have h1 : ¬ queue_is_empty q = true := by
      simp [queue_is_empty]; exact hempty
    have habs : absQueue q = q.items.getD q.head default ::
        (List.range m).map
          (fun i => q.items.getD ((q.head + (i + 1)) % q.capacity) default) := by
      unfold absQueue
      rw [hm, List.range_succ_eq_map, List.map_cons, List.map_map]
      congr 1
      rw [Nat.add_zero, Nat.mod_eq_of_lt hhead]
    unfold queue_dequeue
    rw [if_neg h1, habs]
    refine ⟨rfl, ?_⟩
    unfold absQueue
    have hm' : q.count - 1 = m := by omega
    calc (List.range (q.count - 1)).map
          (fun i => q.items.getD (((q.head + 1) % q.capacity + i)
            % q.capacity) default)
        = (List.range m).map
          (fun i => q.items.getD (((q.head + 1) % q.capacity + i)
            % q.capacity) default) := by rw [hm']
      _ = (List.range m).map
          (fun i => q.items.getD ((q.head + (i + 1)) % q.capacity) default) :=
        absQueue_drop_head q.items q.capacity q.head m

theorem runQueue_sim (ops : List QOp) :
    ∀ q : Queue, QueueInv q →
      runQueue q ops = runSpec q.capacity (absQueue q) ops := by
  induction ops with
  | nil => intro q _; rfl
  | cons op ops ih =>
      intro q hq
      cases op with
      | enq x =>
          obtain ⟨hflag, habs⟩ := queue_enqueue_abs q x hq
          show QOut.enqRes (queue_enqueue q x).1 ::
              runQueue (queue_enqueue q x).2 ops = _
          rw [hflag, ih _ (queue_enqueue_inv q x hq),
            queue_enqueue_capacity q x, habs]
          rfl
      | deq =>
          obtain ⟨hflag, habs⟩ := queue_dequeue_abs q hq
          show QOut.deqRes (queue_dequeue q).1 ::
              runQueue (queue_dequeue q).2 ops = _
          rw [hflag, ih _ (queue_dequeue_inv q hq),
            queue_dequeue_capacity q, habs]
          rfl

/-- C4: the circular head/tail/count implementation is observationally
equivalent to a simple list-based FIFO: any sequence of enqueues and
dequeues from a fresh queue produces the same trace of success flags and
dequeued items, so the k-th successful dequeue returns the k-th
successfully enqueued item. -/
theorem queue_refines_list_fifo (c : Nat) (q0 : Queue) (ops : List QOp)
    (hinit : queue_init c = some q0) :
    runQueue q0 ops = runSpec c [] ops := by
  have hinv := queue_init_inv c q0 hinit
  obtain ⟨hcnt, hcap⟩ := queue_init_fields c q0 hinit
  have habs : absQueue q0 = [] := by simp [absQueue, hcnt]
  rw [runQueue_sim ops q0 hinv, habs, hcap]

/-- Witness for C4: a concrete run (two enqueues, three dequeues) on a
fresh capacity-2 queue matches the list-based model. -/
theorem queue_refines_list_fifo_witness :
    runQueue qDemo
      [QOp.enq { data := [1], length := 1 }, QOp.enq { data := [2], length := 1 },
       QOp.deq, QOp.deq, QOp.deq] =
    runSpec 2 []
      [QOp.enq { data := [1], length := 1 }, QOp.enq { data := [2], length := 1 },
       QOp.deq, QOp.deq, QOp.deq] :=
  queue_refines_list_fifo 2 qDemo
    [QOp.enq { data := [1], length := 1 }, QOp.enq { data := [2], length := 1 },
     QOp.deq, QOp.deq, QOp.deq] (by decide)

/-! ## SentenceDecoder (`src/common/nmea.c`)

C strings are modelled as `List Char` (the characters before the
terminating NUL). A read past the end of a token (`*(p+1)` at the end of
the buffer) reads the NUL terminator, modelled as `Char.ofNat 0`. -/

/-- `hex2uc`: value of a hex digit, `0xFF` for anything else. -/
def hex2uc (c : Char) : Nat :=
  if 48 ≤ c.toNat ∧ c.toNat ≤ 57 then c.toNat - 48
  else if 65 ≤ c.toNat ∧ c.toNat ≤ 70 then c.toNat - 65 + 10
  else if 97 ≤ c.toNat ∧ c.toNat ≤ 102 then c.toNat - 97 + 10
  else 255

/-- The scan loop of `checksum_ok`: XOR characters (cast to
`unsigned char`) until the first `'*'` or the end of the string; an
exhausted string (`*p == '\0'`) means no `'*'` and fails. At the `'*'`,
the two following characters (NUL when the string ends early) must be hex
digits whose value equals the accumulated checksum. -/
def csLoop : List Char → Nat → Bool
  | [], _ => false
  | c :: rest, cs =>
      if c = '*' then
        if hex2uc (rest.getD 0 (Char.ofNat 0)) = 255 ∨
           hex2uc (rest.getD 1 (Char.ofNat 0)) = 255 then false
        else cs == ((hex2uc (rest.getD 0 (Char.ofNat 0)) <<< 4) |||
                    hex2uc (rest.getD 1 (Char.ofNat 0)))
      else csLoop rest (Nat.xor cs (c.toNat % 256))

/-- `checksum_ok`: requires a leading `'$'`, then runs the scan loop from
the character after it with checksum 0. -/
def checksum_ok (line : List Char) : Bool :=
  match line with
  | [] => false
  | c :: rest => if c = '$' then csLoop rest 0 else false

/-- Integer-digit accumulation shared by `atoi`/`atof`: consume leading
decimal digits, returning the value and the rest of the string. -/
def digitsVal : List Char → Nat → Nat × List Char
  | [], acc => (acc, [])
  | c :: rest, acc =>
      if 48 ≤ c.toNat ∧ c.toNat ≤ 57 then
        digitsVal rest (acc * 10 + (c.toNat - 48))
      else (acc, c :: rest)

/-- Fractional-digit value (digits after the decimal point, stopping at
the first non-digit). -/
def fracVal : List Char → ℚ
  | [] => 0
  | c :: rest =>
      if 48 ≤ c.toNat ∧ c.toNat ≤ 57 then
        (((c.toNat - 48 : Nat) : ℚ) + fracVal rest) / 10
      else 0

/-- Does C `isspace` accept this character? -/
def isSpaceChar (c : Char) : Bool := c.toNat = 32 ∨ (9 ≤ c.toNat ∧ c.toNat ≤ 13)

/-- Modelled `atof` for the decimal strings NMEA sentences carry: optional
leading whitespace and sign, integer digits, optional `.` and fractional
digits. Exact rational arithmetic stands in for C `double` (no claim
proved here depends on floating-point rounding); exponent notation is not
modelled. -/
def atof (s : List Char) : ℚ :=
  let t := s.dropWhile isSpaceChar
  let signed : Bool × List Char :=
    match t with
    | '-' :: rest => (true, rest)
    | '+' :: rest => (false, rest)
    | _ => (false, t)
  let ip := digitsVal signed.2 0
  let v : ℚ :=
    match ip.2 with
    | '.' :: frac => ((ip.1 : Nat) : ℚ) + fracVal frac
    | _ => ((ip.1 : Nat) : ℚ)
  if signed.1 then -v else v

/-- Modelled `atoi`: optional leading whitespace and sign, then decimal
digits (`int` overflow is undefined behaviour in C and not modelled). -/
def atoi (s : List Char) : Int :=
  let t := s.dropWhile isSpaceChar
  match t with
  | '-' :: rest => -(((digitsVal rest 0).1 : Nat) : Int)
  | '+' :: rest => (((digitsVal rest 0).1 : Nat) : Int)
  | _ => (((digitsVal t 0).1 : Nat) : Int)

/-- `nmea_deg_to_decimal`: token `DDDMM.MMMM` plus hemisphere letter to
signed decimal degrees. `deg_len` is the digit count before the last two
digits preceding the `.` (string length minus 2 when there is no `.`). -/
def nmea_deg_to_decimal (ddmm : List Char) (hem : List Char) : ℚ :=
  if ddmm = [] then 0
  else
    let deg_len : Int := ((ddmm.takeWhile (· ≠ '.')).length : Int) - 2
    if deg_len ≤ 0 ∨ 3 < deg_len then 0
    else
      let deg := atof (ddmm.take deg_len.toNat)
      let mins := atof (ddmm.drop deg_len.toNat)
      let val := deg + mins / 60
      if hem.headD (Char.ofNat 0) = 'S' ∨ hem.headD (Char.ofNat 0) = 'W'
      then -val else val

/-- The accumulator record `nmea_info_t`. `lat_deg`/`lon_deg` are C
doubles, modelled as exact rationals; `time_utc` is the C string held in
the 16-byte buffer. -/
structure nmea_info_t where
  has_fix : Bool
  fix_quality : Int
  sats : Int
  lat_deg : ℚ
  lon_deg : ℚ
  time_utc : List Char
deriving Repr, DecidableEq, Inhabited

/-- Comma split keeping empty fields: the positional field list of a
sentence body. -/
def splitComma : List Char → List (List Char)
  | [] => [[]]
  | c :: rest =>
      let r := splitComma rest
      if c = ',' then [] :: r
      else (c :: r.headD []) :: r.tail

/-- The token sequence produced by repeated `strtok(p, ",")`: the maximal
nonempty runs between commas. Consecutive commas yield no token, so an
empty field shifts every later field one slot to the left. -/
def strtokComma (s : List Char) : List (List Char) :=
  (splitComma s).filter (fun t => t ≠ [])

/-- The `GPGGA`/`GNGGA` branch of `nmea_parse_line`, after the sentence
type matched. `f` holds at most 16 tokens; `f[i]` is non-NULL in the C
code exactly when `i < n`, so the C conditions `n>5 && f[2]&&f[3]&&f[4]&&f[5]`
and `n>6 && ...` reduce to the bound on `n`. -/
def parse_gga (p : List Char) (out : nmea_info_t) : nmea_info_t :=
  let f := (strtokComma p).take 16
  let n := f.length
  let o1 := if 1 < n ∧ f.getD 1 [] ≠ [] then
      { out with time_utc := (f.getD 1 []).take 15 } else out
  let o2 := if 6 < n ∧ f.getD 6 [] ≠ [] then
      { o1 with fix_quality := atoi (f.getD 6 []),
                has_fix := decide (0 < atoi (f.getD 6 [])) } else o1
  let o3 := if 7 < n ∧ f.getD 7 [] ≠ [] then
      { o2 with sats := atoi (f.getD 7 []) } else o2
  if 5 < n then
      { o3 with lat_deg := nmea_deg_to_decimal (f.getD 2 []) (f.getD 3 []),
                lon_deg := nmea_deg_to_decimal (f.getD 4 []) (f.getD 5 []) }
  else o3

/-- The `GPRMC`/`GNRMC` branch: `*f[2]=='A'` sets `has_fix`; nothing ever
clears it. -/
def parse_rmc (p : List Char) (out : nmea_info_t) : nmea_info_t :=
  let f := (strtokComma p).take 16
  let n := f.length
  let o1 := if 1 < n ∧ f.getD 1 [] ≠ [] then
      { out with time_utc := (f.getD 1 []).take 15 } else out
  let o2 := if 2 < n ∧ f.getD 2 [] ≠ [] then
      (if (f.getD 2 []).headD (Char.ofNat 0) = 'A' then
        { o1 with has_fix := true } else o1)
    else o1
  if 6 < n then
      { o2 with lat_deg := nmea_deg_to_decimal (f.getD 3 []) (f.getD 4 []),
                lon_deg := nmea_deg_to_decimal (f.getD 5 []) (f.getD 6 []) }
  else o2

/-- The string the tokenizer works on: the local copy with a leading `'$'`
stripped (`if(*p=='$') p++`) and everything from the first `'*'` cut off
(`char *star=strchr(p,'*'); if(star)*star='\0';`). -/
def sentence_body (buf : List Char) : List Char :=
  (if buf.headD (Char.ofNat 0) = '$' then buf.tail else buf).takeWhile (· ≠ '*')

/-- The tokenizing part of `nmea_parse_line`, operating on the local copy
`buf` (already truncated to 255 characters by the caller): dispatch on the
first five characters of the body (`strncmp(p, "GPGGA", 5)` etc.).
Unrecognized types leave the record untouched. -/
def nmea_decode_fields (buf : List Char) (out : nmea_info_t) : nmea_info_t :=
  if (sentence_body buf).take 5 = "GPGGA".toList ∨
     (sentence_body buf).take 5 = "GNGGA".toList then
    parse_gga (sentence_body buf) out
  else if (sentence_body buf).take 5 = "GPRMC".toList ∨
          (sentence_body buf).take 5 = "GNRMC".toList then
    parse_rmc (sentence_body buf) out
  else out

/-- `nmea_parse_line`: checksum is validated on the whole input line; on
success the fields are decoded from the 255-character truncated copy
(`char buf[256]; strncpy(buf, line, sizeof(buf)-1)`). The C function
mutates `out` in place and returns a `bool`; here it returns the flag and
the new record, leaving the record unchanged on failure. -/
def nmea_parse_line (line : List Char) (out : nmea_info_t) :
    Bool × nmea_info_t :=
  if checksum_ok line = true then
    (true, nmea_decode_fields (line.take 255) out)
  else (false, out)

/-! ### C2: rejected sentences leave the accumulator unchanged -/

theorem csLoop_no_star (rest : List Char) :
    ∀ cs, '*' ∉ rest → csLoop rest cs = false := by
  induction rest with
  | nil => intro cs _; rfl
  | cons c r ih =>
      intro cs hmem
      have hc : ¬ c = '*' := fun h => hmem (h ▸ List.mem_cons_self c r)
      unfold csLoop
      rw [if_neg hc]
      exact ih _ (fun h => hmem (List.mem_cons_of_mem c h))

theorem csLoop_star (rest : List Char) :
    ∀ cs, '*' ∈ rest →
      csLoop rest cs =
        (if hex2uc (((rest.dropWhile (· ≠ '*')).drop 1).getD 0 (Char.ofNat 0))
              = 255 ∨
            hex2uc (((rest.dropWhile (· ≠ '*')).drop 1).getD 1 (Char.ofNat 0))
              = 255
         then false
         else ((rest.takeWhile (· ≠ '*')).foldl
                  (fun a ch => Nat.xor a (ch.toNat % 256)) cs)
            == ((hex2uc (((rest.dropWhile (· ≠ '*')).drop 1).getD 0
                    (Char.ofNat 0)) <<< 4) |||
                hex2uc (((rest.dropWhile (· ≠ '*')).drop 1).getD 1
                    (Char.ofNat 0)))) := by
  induction rest with
  | nil => intro cs h; cases h
  | cons c r ih =>
      intro cs hmem
      by_cases hc : c = '*'
      · subst hc
        unfold csLoop
        rw [if_pos rfl]
        simp
      · have hr : '*' ∈ r := by
          rcases List.mem_cons.mp hmem with h | h
          · exact absurd h.symm hc
          · exact h
        unfold csLoop
        rw [if_neg hc, ih _ hr]
        simp [List.dropWhile_cons, List.takeWhile_cons, hc]

/-- C2: a line with no `'*'`, or a malformed hex pair after the first
`'*'`, or a hex value that differs from the XOR of the characters strictly
between the leading `'$'` and the `'*'`, makes `nmea_parse_line` return
`false` with the accumulator record entirely unchanged. -/
theorem nmea_reject_unchanged (line : List Char) (out : nmea_info_t)
    (h : '*' ∉ line ∨
      (line.headD (Char.ofNat 0) = '$' ∧ '*' ∈ line ∧
        (hex2uc (((line.dropWhile (· ≠ '*')).drop 1).getD 0 (Char.ofNat 0))
            = 255 ∨
         hex2uc (((line.dropWhile (· ≠ '*')).drop 1).getD 1 (Char.ofNat 0))
            = 255 ∨
         ((line.drop 1).takeWhile (· ≠ '*')).foldl
             (fun a ch => Nat.xor a (ch.toNat % 256)) 0 ≠
           ((hex2uc (((line.dropWhile (· ≠ '*')).drop 1).getD 0
                (Char.ofNat 0)) <<< 4) |||
            hex2uc (((line.dropWhile (· ≠ '*')).drop 1).getD 1
                (Char.ofNat 0)))))) :
    nmea_parse_line line out = (false, out) := by
  suffices hcs : checksum_ok line = false by
    unfold nmea_parse_line
    rw [hcs]
    simp
  rcases h with hnostar | ⟨hhead, hstar, hbad⟩
  · cases line with
    | nil => rfl
    | cons c rest =>
        show (if c = '$' then csLoop rest 0 else false) = false
        by_cases hc : c = '$'
        · rw [if_pos hc]
          exact csLoop_no_star rest 0
            (fun h => hnostar (List.mem_cons_of_mem c h))
        · rw [if_neg hc]
  · cases line with
    | nil => cases hstar
    | cons c rest =>
        have hc : c = '$' := by
          simpa using hhead
        subst hc
        have hstar' : '*' ∈ rest := by
          rcases List.mem_cons.mp hstar with h | h
          · exact absurd h.symm (by decide)
          · exact h
        show (if ('$' : Char) = '$' then csLoop rest 0 else false) = false
        rw [if_pos rfl, csLoop_star rest 0 hstar']
        have hdrop : ('$' :: rest).dropWhile (· ≠ '*')
            = rest.dropWhile (· ≠ '*') := by
          simp [List.dropWhile_cons]
        rw [hdrop] at hbad
        have htake : (('$' :: rest).drop 1).takeWhile (· ≠ '*')
            = rest.takeWhile (· ≠ '*') := rfl
        rw [htake] at hbad
        rcases hbad with hbad | hbad | hbad
        · rw [if_pos (Or.inl hbad)]
        · rw [if_pos (Or.inr hbad)]
        · by_cases hhex :
            hex2uc (((rest.dropWhile (· ≠ '*')).drop 1).getD 0 (Char.ofNat 0))
              = 255 ∨
            hex2uc (((rest.dropWhile (· ≠ '*')).drop 1).getD 1 (Char.ofNat 0))
              = 255
          · rw [if_pos hhex]
          · rw [if_neg hhex]
            simpa using hbad

/-- Witness for C2: a line without `'*'` is rejected and the accumulator
(with a distinctive prior time field) is returned untouched. -/
theorem nmea_reject_unchanged_witness :
    nmea_parse_line "$GPGGA,123519".toList
        { has_fix := true, fix_quality := 2, sats := 7, lat_deg := 1,
          lon_deg := 2, time_utc := ['T'] } =
      (false,
       { has_fix := true, fix_quality := 2, sats := 7, lat_deg := 1,
         lon_deg := 2, time_utc := ['T'] }) :=
  nmea_reject_unchanged _ _ (Or.inl (by decide))

/-! ### C10: checksum over the whole line, tokenization over 255 chars -/

/-- C10: for input lines of 256 characters or more (both lines here), the
returned flag is the checksum verdict on the entire original line, the
record is decoded from the copy truncated to the first 255 characters, and
hence two valid-checksum long lines agreeing on that prefix decode to the
same record. -/
theorem nmea_truncation (lineA lineB : List Char) (out : nmea_info_t)
    (hA : 256 ≤ lineA.length) (hB : 256 ≤ lineB.length)
    (hpre : lineA.take 255 = lineB.take 255)
    (hcsA : checksum_ok lineA = true) (hcsB : checksum_ok lineB = true) :
    (nmea_parse_line lineA out).1 = checksum_ok lineA ∧
    nmea_parse_line lineA out =
      (true, nmea_decode_fields (lineA.take 255) out) ∧
    (nmea_parse_line lineA out).2 = (nmea_parse_line lineB out).2 := by
  unfold nmea_parse_line
  rw [if_pos hcsA, if_pos hcsB, hcsA, hpre]
  exact ⟨rfl, rfl, rfl⟩

set_option maxRecDepth 20000 in
/-- Witness for C10: two 305-character lines sharing their first 255
characters, both with valid checksums over the whole line, decode to the
same record. -/
theorem nmea_truncation_witness :
    (nmea_parse_line ('$' :: (List.replicate 300 'A' ++ ['*', '0', '0']))
        { has_fix := false, fix_quality := 0, sats := 0, lat_deg := 0,
          lon_deg := 0, time_utc := [] }).1 =
      checksum_ok ('$' :: (List.replicate 300 'A' ++ ['*', '0', '0'])) ∧
    nmea_parse_line ('$' :: (List.replicate 300 'A' ++ ['*', '0', '0']))
        { has_fix := false, fix_quality := 0, sats := 0, lat_deg := 0,
          lon_deg := 0, time_utc := [] } =
      (true, nmea_decode_fields
        (('$' :: (List.replicate 300 'A' ++ ['*', '0', '0'])).take 255)
        { has_fix := false, fix_quality := 0, sats := 0, lat_deg := 0,
          lon_deg := 0, time_utc := [] }) ∧
    (nmea_parse_line ('$' :: (List.replicate 300 'A' ++ ['*', '0', '0']))
        { has_fix := false, fix_quality := 0, sats := 0, lat_deg := 0,
          lon_deg := 0, time_utc := [] }).2 =
    (nmea_parse_line
        ('$' :: (List.replicate 299 'A' ++ ['B', '*', '0', '3']))
        { has_fix := false, fix_quality := 0, sats := 0, lat_deg := 0,
          lon_deg := 0, time_utc := [] }).2 :=
  nmea_truncation ('$' :: (List.replicate 300 'A' ++ ['*', '0', '0']))
    ('$' :: (List.replicate 299 'A' ++ ['B', '*', '0', '3']))
    { has_fix := false, fix_quality := 0, sats := 0, lat_deg := 0,
      lon_deg := 0, time_utc := [] }
    (by simp) (by simp) (by decide) (by decide) (by decide)

/-! ### C5, C6: which sentences update which fields

`strtok` drops empty fields, so the decoder's token indices need not line
up with the sentence's positional comma-separated fields: an empty field
shifts every later field one slot left. -/

/-- Counterexample to C5: in `$GPGGA,,123519*5B` (valid checksum) the
positional field 1 — UTC time — is the empty token between the consecutive
commas, so per the claim `time_utc` must retain its prior value; the code
nevertheless overwrites `time_utc` with `123519` (the latitude field
shifted into slot 1 by `strtok`). -/
theorem nmea_empty_field_overwrites :
    (splitComma "GPGGA,,123519".toList).getD 1 [] = [] ∧
    nmea_parse_line "$GPGGA,,123519*5B".toList
        { has_fix := false, fix_quality := 0, sats := 0, lat_deg := 0,
          lon_deg := 0, time_utc := [] } =
      (true,
       { has_fix := false, fix_quality := 0, sats := 0, lat_deg := 0,
         lon_deg := 0, time_utc := "123519".toList }) := by
  decide

/-- The body of the sentence the decoder tokenizes for input `line`. -/
def nmea_body (line : List Char) : List Char := sentence_body (line.take 255)

/-- The token list the handlers index (`strtok` tokens, at most 16). -/
def nmea_tokens (line : List Char) : List (List Char) :=
  (strtokComma (nmea_body line)).take 16

/-- The line dispatches to the fix-data (`GGA`) handler. -/
def isGGA (line : List Char) : Prop :=
  (nmea_body line).take 5 = "GPGGA".toList ∨
  (nmea_body line).take 5 = "GNGGA".toList

/-- The line dispatches to the recommended-minimum (`RMC`) handler. -/
def isRMC (line : List Char) : Prop :=
  (nmea_body line).take 5 = "GPRMC".toList ∨
  (nmea_body line).take 5 = "GNRMC".toList

theorem not_isGGA_of_isRMC (line : List Char) (h : isRMC line) :
    ¬ isGGA line := by
  intro hg
  rcases h with h | h <;> rcases hg with h' | h' <;> rw [h] at h' <;>
    exact absurd h' (by decide)

/-- The decoder writes `time_utc` for this line. -/
def suppliesTime (line : List Char) : Prop :=
  checksum_ok line = true ∧ (isGGA line ∨ isRMC line) ∧
  1 < (nmea_tokens line).length ∧ (nmea_tokens line).getD 1 [] ≠ []

/-- The decoder writes `fix_quality` (and with it `has_fix`) for this
line. -/
def suppliesQuality (line : List Char) : Prop :=
  checksum_ok line = true ∧ isGGA line ∧
  6 < (nmea_tokens line).length ∧ (nmea_tokens line).getD 6 [] ≠ []

/-- The decoder's RMC handler sets `has_fix` for this line: token 2
exists, is nonempty and begins with `'A'`. -/
def suppliesRmcStatusA (line : List Char) : Prop :=
  checksum_ok line = true ∧ isRMC line ∧
  2 < (nmea_tokens line).length ∧ (nmea_tokens line).getD 2 [] ≠ [] ∧
  ((nmea_tokens line).getD 2 []).headD (Char.ofNat 0) = 'A'

/-- The decoder writes `sats` for this line. -/
def suppliesSats (line : List Char) : Prop :=
  checksum_ok line = true ∧ isGGA line ∧
  7 < (nmea_tokens line).length ∧ (nmea_tokens line).getD 7 [] ≠ []

/-- The decoder writes `lat_deg`/`lon_deg` for this line. -/
def suppliesLatLon (line : List Char) : Prop :=
  checksum_ok line = true ∧
  ((isGGA line ∧ 5 < (nmea_tokens line).length) ∨
   (isRMC line ∧ 6 < (nmea_tokens line).length))

instance (line : List Char) : Decidable (isGGA line) := by
  unfold isGGA; infer_instance

instance (line : List Char) : Decidable (isRMC line) := by
  unfold isRMC; infer_instance

instance (line : List Char) : Decidable (suppliesTime line) := by
  unfold suppliesTime; infer_instance

instance (line : List Char) : Decidable (suppliesQuality line) := by
  unfold suppliesQuality; infer_instance

instance (line : List Char) : Decidable (suppliesRmcStatusA line) := by
  unfold suppliesRmcStatusA; infer_instance

instance (line : List Char) : Decidable (suppliesSats line) := by
  unfold suppliesSats; infer_instance

instance (line : List Char) : Decidable (suppliesLatLon line) := by
  unfold suppliesLatLon; infer_instance

theorem parse_gga_frame (p : List Char) (out : nmea_info_t) :
    ((¬ (1 < ((strtokComma p).take 16).length ∧
         ((strtokComma p).take 16).getD 1 [] ≠ [])) →
       (parse_gga p out).time_utc = out.time_utc) ∧
    ((¬ (6 < ((strtokComma p).take 16).length ∧
         ((strtokComma p).take 16).getD 6 [] ≠ [])) →
       (parse_gga p out).fix_quality = out.fix_quality ∧
       (parse_gga p out).has_fix = out.has_fix) ∧
    ((¬ (7 < ((strtokComma p).take 16).length ∧
         ((strtokComma p).take 16).getD 7 [] ≠ [])) →
       (parse_gga p out).sats = out.sats) ∧
    ((¬ 5 < ((strtokComma p).take 16).length) →
       (parse_gga p out).lat_deg = out.lat_deg ∧
       (parse_gga p out).lon_deg = out.lon_deg) := by
  simp only [parse_gga]
  by_cases h1 : 1 < ((strtokComma p).take 16).length ∧
      ((strtokComma p).take 16).getD 1 [] ≠ [] <;>
  by_cases h2 : 6 < ((strtokComma p).take 16).length ∧
      ((strtokComma p).take 16).getD 6 [] ≠ [] <;>
  by_cases h3 : 7 < ((strtokComma p).take 16).length ∧
      ((strtokComma p).take 16).getD 7 [] ≠ [] <;>
  by_cases h4 : 5 < ((strtokComma p).take 16).length <;>
    (first | rw [if_pos h1] | rw [if_neg h1]) <;>
    (first | rw [if_pos h2] | rw [if_neg h2]) <;>
    (first | rw [if_pos h3] | rw [if_neg h3]) <;>
    (first | rw [if_pos h4] | rw [if_neg h4]) <;>
    refine ⟨fun hpre => ?_, fun hpre => ?_, fun hpre => ?_, fun hpre => ?_⟩ <;>
    first
      | exact absurd h1 hpre
      | exact absurd h2 hpre
      | exact absurd h3 hpre
      | exact absurd h4 hpre
      | rfl
      | exact ⟨rfl, rfl⟩

theorem parse_rmc_frame (p : List Char) (out : nmea_info_t) :
    ((¬ (1 < ((strtokComma p).take 16).length ∧
         ((strtokComma p).take 16).getD 1 [] ≠ [])) →
       (parse_rmc p out).time_utc = out.time_utc) ∧
    (parse_rmc p out).fix_quality = out.fix_quality ∧
    (parse_rmc p out).sats = out.sats ∧
    ((¬ (2 < ((strtokComma p).take 16).length ∧
         ((strtokComma p).take 16).getD 2 [] ≠ [] ∧
         (((strtokComma p).take 16).getD 2 []).headD (Char.ofNat 0) = 'A')) →
       (parse_rmc p out).has_fix = out.has_fix) ∧
    ((¬ 6 < ((strtokComma p).take 16).length) →
       (parse_rmc p out).lat_deg = out.lat_deg ∧
       (parse_rmc p out).lon_deg = out.lon_deg) := by
  simp only [parse_rmc]
  by_cases h1 : 1 < ((strtokComma p).take 16).length ∧
      ((strtokComma p).take 16).getD 1 [] ≠ [] <;>
  by_cases h2 : 2 < ((strtokComma p).take 16).length ∧
      ((strtokComma p).take 16).getD 2 [] ≠ [] <;>
  by_cases hA : (((strtokComma p).take 16).getD 2 []).headD (Char.ofNat 0)
      = 'A' <;>
  by_cases h4 : 6 < ((strtokComma p).take 16).length <;>
    (first | rw [if_pos h1] | rw [if_neg h1]) <;>
    (first | rw [if_pos h2] | rw [if_neg h2]) <;>
    (first | rw [if_pos hA] | rw [if_neg hA] | skip) <;>
    (first | rw [if_pos h4] | rw [if_neg h4]) <;>
    refine ⟨fun hpre => ?_, ?_, ?_, fun hpre => ?_, fun hpre => ?_⟩ <;>
    first
      | exact absurd h1 hpre
      | exact absurd (show 2 < ((strtokComma p).take 16).length ∧
          ((strtokComma p).take 16).getD 2 [] ≠ [] ∧
          (((strtokComma p).take 16).getD 2 []).headD (Char.ofNat 0) = 'A'
          from ⟨h2.1, h2.2, hA⟩) hpre
      | exact absurd h4 hpre
      | rfl
      | exact ⟨rfl, rfl⟩

/-- C5 (amended): the decoder indexes the `strtok` token list, which drops
empty fields and shifts later fields left; each accumulator field is
overwritten only when the token the handler reads for it is present (and,
where checked, non-empty), and any field whose update condition fails
retains its previous value — including the whole record when the checksum
fails or the sentence type is unrecognized. -/
theorem nmea_frame (line : List Char) (out : nmea_info_t) :
    (¬ suppliesTime line →
       (nmea_parse_line line out).2.time_utc = out.time_utc) ∧
    (¬ suppliesQuality line →
       (nmea_parse_line line out).2.fix_quality = out.fix_quality) ∧
    (¬ suppliesQuality line ∧ ¬ suppliesRmcStatusA line →
       (nmea_parse_line line out).2.has_fix = out.has_fix) ∧
    (¬ suppliesSats line → (nmea_parse_line line out).2.sats = out.sats) ∧
    (¬ suppliesLatLon line →
       (nmea_parse_line line out).2.lat_deg = out.lat_deg ∧
       (nmea_parse_line line out).2.lon_deg = out.lon_deg) := by
  by_cases hcs : checksum_ok line = true
  case neg =>
    have hout : nmea_parse_line line out = (false, out) := by
      unfold nmea_parse_line
      rw [if_neg hcs]
    rw [hout]
    exact ⟨fun _ => rfl, fun _ => rfl, fun _ => rfl, fun _ => rfl,
      fun _ => ⟨rfl, rfl⟩⟩
  case pos =>
    have hout : (nmea_parse_line line out).2
        = nmea_decode_fields (line.take 255) out := by
      unfold nmea_parse_line
      rw [if_pos hcs]
    rw [hout]
    by_cases hgga : isGGA line
    · have hgga' : (sentence_body (line.take 255)).take 5 = "GPGGA".toList ∨
          (sentence_body (line.take 255)).take 5 = "GNGGA".toList := hgga
      have hd : nmea_decode_fields (line.take 255) out
          = parse_gga (sentence_body (line.take 255)) out := by
        unfold nmea_decode_fields
        rw [if_pos hgga']
      rw [hd]
      obtain ⟨ft, fq, fs, fl⟩ :=
        parse_gga_frame (sentence_body (line.take 255)) out
      refine ⟨?_, ?_, ?_, ?_, ?_⟩
      · exact fun hnt => ft (fun c => hnt ⟨hcs, Or.inl hgga, c.1, c.2⟩)
      · exact fun hnq => (fq (fun c => hnq ⟨hcs, hgga, c.1, c.2⟩)).1
      · exact fun hn => (fq (fun c => hn.1 ⟨hcs, hgga, c.1, c.2⟩)).2
      · exact fun hns => fs (fun c => hns ⟨hcs, hgga, c.1, c.2⟩)
      · exact fun hnl => fl (fun c => hnl ⟨hcs, Or.inl ⟨hgga, c⟩⟩)
    · by_cases hrmc : isRMC line
      · have hgga' : ¬ ((sentence_body (line.take 255)).take 5
              = "GPGGA".toList ∨
            (sentence_body (line.take 255)).take 5 = "GNGGA".toList) := hgga
        have hrmc' : (sentence_body (line.take 255)).take 5
              = "GPRMC".toList ∨
            (sentence_body (line.take 255)).take 5 = "GNRMC".toList := hrmc
        have hd : nmea_decode_fields (line.take 255) out
            = parse_rmc (sentence_body (line.take 255)) out := by
          unfold nmea_decode_fields
          rw [if_neg hgga', if_pos hrmc']
        rw [hd]
        obtain ⟨ft, fq, fs, fA, fl⟩ :=
          parse_rmc_frame (sentence_body (line.take 255)) out
        refine ⟨?_, fun _ => fq, ?_, fun _ => fs, ?_⟩
        · exact fun hnt => ft (fun c => hnt ⟨hcs, Or.inr hrmc, c.1, c.2⟩)
        · exact fun hn =>
            fA (fun c => hn.2 ⟨hcs, hrmc, c.1, c.2.1, c.2.2⟩)
        · exact fun hnl => fl (fun c => hnl ⟨hcs, Or.inr ⟨hrmc, c⟩⟩)
      · have hgga' : ¬ ((sentence_body (line.take 255)).take 5
              = "GPGGA".toList ∨
            (sentence_body (line.take 255)).take 5 = "GNGGA".toList) := hgga
        have hrmc' : ¬ ((sentence_body (line.take 255)).take 5
              = "GPRMC".toList ∨
            (sentence_body (line.take 255)).take 5 = "GNRMC".toList) := hrmc
        have hd : nmea_decode_fields (line.take 255) out = out := by
          unfold nmea_decode_fields
          rw [if_neg hgga', if_neg hrmc']
        rw [hd]
        exact ⟨fun _ => rfl, fun _ => rfl, fun _ => rfl, fun _ => rfl,
          fun _ => ⟨rfl, rfl⟩⟩

/-- Witness for the amended C5: a valid-checksum satellite-detail sentence
(`GSV`, recognized but unhandled) supplies no field, and a record with
distinctive values in every field is returned entirely unchanged. -/
theorem nmea_frame_witness :
    (nmea_parse_line "$GPGSV,3,1,11*7B".toList
        { has_fix := true, fix_quality := 2, sats := 7, lat_deg := 1,
          lon_deg := 2, time_utc := ['T'] }).2.time_utc = ['T'] ∧
    (nmea_parse_line "$GPGSV,3,1,11*7B".toList
        { has_fix := true, fix_quality := 2, sats := 7, lat_deg := 1,
          lon_deg := 2, time_utc := ['T'] }).2.fix_quality = 2 ∧
    (nmea_parse_line "$GPGSV,3,1,11*7B".toList
        { has_fix := true, fix_quality := 2, sats := 7, lat_deg := 1,
          lon_deg := 2, time_utc := ['T'] }).2.has_fix = true ∧
    (nmea_parse_line "$GPGSV,3,1,11*7B".toList
        { has_fix := true, fix_quality := 2, sats := 7, lat_deg := 1,
          lon_deg := 2, time_utc := ['T'] }).2.sats = 7 ∧
    (nmea_parse_line "$GPGSV,3,1,11*7B".toList
        { has_fix := true, fix_quality := 2, sats := 7, lat_deg := 1,
          lon_deg := 2, time_utc := ['T'] }).2.lat_deg = 1 ∧
    (nmea_parse_line "$GPGSV,3,1,11*7B".toList
        { has_fix := true, fix_quality := 2, sats := 7, lat_deg := 1,
          lon_deg := 2, time_utc := ['T'] }).2.lon_deg = 2 :=
  ⟨(nmea_frame "$GPGSV,3,1,11*7B".toList
      { has_fix := true, fix_quality := 2, sats := 7, lat_deg := 1,
        lon_deg := 2, time_utc := ['T'] }).1 (by decide),
   (nmea_frame "$GPGSV,3,1,11*7B".toList
      { has_fix := true, fix_quality := 2, sats := 7, lat_deg := 1,
        lon_deg := 2, time_utc := ['T'] }).2.1 (by decide),
   (nmea_frame "$GPGSV,3,1,11*7B".toList
      { has_fix := true, fix_quality := 2, sats := 7, lat_deg := 1,
        lon_deg := 2, time_utc := ['T'] }).2.2.1 ⟨by decide, by decide⟩,
   (nmea_frame "$GPGSV,3,1,11*7B".toList
      { has_fix := true, fix_quality := 2, sats := 7, lat_deg := 1,
        lon_deg := 2, time_utc := ['T'] }).2.2.2.1 (by decide),
   ((nmea_frame "$GPGSV,3,1,11*7B".toList
      { has_fix := true, fix_quality := 2, sats := 7, lat_deg := 1,
        lon_deg := 2, time_utc := ['T'] }).2.2.2.2 (by decide)).1,
   ((nmea_frame "$GPGSV,3,1,11*7B".toList
      { has_fix := true, fix_quality := 2, sats := 7, lat_deg := 1,
        lon_deg := 2, time_utc := ['T'] }).2.2.2.2 (by decide)).2⟩

/-- Counterexample to C6: in `$GPRMC,1,AX*63` (valid checksum) the status
field — positional field 2 of the sentence — is `AX`, not exactly `A`, yet
the decoder sets has-fix to true (the code checks only the first character
of the token). -/
theorem nmea_rmc_status_not_exactly_A :
    (splitComma "GPRMC,1,AX".toList).getD 2 [] = "AX".toList ∧
    "AX".toList ≠ "A".toList ∧
    nmea_parse_line "$GPRMC,1,AX*63".toList
        { has_fix := false, fix_quality := 0, sats := 0, lat_deg := 0,
          lon_deg := 0, time_utc := [] } =
      (true,
       { has_fix := true, fix_quality := 0, sats := 0, lat_deg := 0,
         lon_deg := 0, time_utc := ['1'] }) := by
  decide

theorem parse_rmc_has_fix (p : List Char) (out : nmea_info_t) :
    (parse_rmc p out).has_fix =
      (if 2 < ((strtokComma p).take 16).length ∧
          ((strtokComma p).take 16).getD 2 [] ≠ [] ∧
          (((strtokComma p).take 16).getD 2 []).headD (Char.ofNat 0) = 'A'
       then true else out.has_fix) := by
  simp only [parse_rmc]
  by_cases h1 : 1 < ((strtokComma p).take 16).length ∧
      ((strtokComma p).take 16).getD 1 [] ≠ [] <;>
  by_cases h2 : 2 < ((strtokComma p).take 16).length ∧
      ((strtokComma p).take 16).getD 2 [] ≠ [] <;>
  by_cases hA : (((strtokComma p).take 16).getD 2 []).headD (Char.ofNat 0)
      = 'A' <;>
  by_cases h4 : 6 < ((strtokComma p).take 16).length <;>
    (first | rw [if_pos h1] | rw [if_neg h1]) <;>
    (first | rw [if_pos h2] | rw [if_neg h2]) <;>
    (first | rw [if_pos hA] | rw [if_neg hA] | skip) <;>
    (first | rw [if_pos h4] | rw [if_neg h4]) <;>
    (first
      | rw [if_pos (show 2 < ((strtokComma p).take 16).length ∧
            ((strtokComma p).take 16).getD 2 [] ≠ [] ∧
            (((strtokComma p).take 16).getD 2 []).headD (Char.ofNat 0) = 'A'
            from ⟨h2.1, h2.2, hA⟩)]
      | rw [if_neg (show ¬ (2 < ((strtokComma p).take 16).length ∧
            ((strtokComma p).take 16).getD 2 [] ≠ [] ∧
            (((strtokComma p).take 16).getD 2 []).headD (Char.ofNat 0) = 'A')
            from fun c => hA c.2.2)]
      | rw [if_neg (show ¬ (2 < ((strtokComma p).take 16).length ∧
            ((strtokComma p).take 16).getD 2 [] ≠ [] ∧
            (((strtokComma p).take 16).getD 2 []).headD (Char.ofNat 0) = 'A')
            from fun c => h2 ⟨c.1, c.2.1⟩)]) <;>
    rfl

/-- C6 (amended): an accepted RMC sentence sets has-fix to true exactly
when the third `strtok` token (which is the positional status field only
when no earlier field is empty) is present, non-empty and begins with
`'A'`; in every other case — including a `'V'` status — has-fix keeps its
previous value, so a void status never clears a previously-true
has-fix. -/
theorem nmea_rmc_fix_iff_token_A (line : List Char) (out : nmea_info_t)
    (hcs : checksum_ok line = true) (hrmc : isRMC line) :
    (nmea_parse_line line out).2.has_fix =
      (if 2 < (nmea_tokens line).length ∧
          (nmea_tokens line).getD 2 [] ≠ [] ∧
          ((nmea_tokens line).getD 2 []).headD (Char.ofNat 0) = 'A'
       then true else out.has_fix) := by
  have hout : (nmea_parse_line line out).2
      = nmea_decode_fields (line.take 255) out := by
    unfold nmea_parse_line
    rw [if_pos hcs]
  rw [hout]
  have hgga' : ¬ ((sentence_body (line.take 255)).take 5 = "GPGGA".toList ∨
      (sentence_body (line.take 255)).take 5 = "GNGGA".toList) :=
    not_isGGA_of_isRMC line hrmc
  have hrmc' : (sentence_body (line.take 255)).take 5 = "GPRMC".toList ∨
      (sentence_body (line.take 255)).take 5 = "GNRMC".toList := hrmc
  have hd : nmea_decode_fields (line.take 255) out
      = parse_rmc (sentence_body (line.take 255)) out := by
    unfold nmea_decode_fields
    rw [if_neg hgga', if_pos hrmc']
  rw [hd]
  exact parse_rmc_has_fix (sentence_body (line.take 255)) out

/-- Witness for the amended C6: `$GPRMC,123519,A*07` (status `A`) sets
has-fix on a record that did not have it. -/
theorem nmea_rmc_fix_iff_token_A_witness :
    (nmea_parse_line "$GPRMC,123519,A*07".toList
        { has_fix := false, fix_quality := 0, sats := 0, lat_deg := 0,
          lon_deg := 0, time_utc := [] }).2.has_fix =
      (if 2 < (nmea_tokens "$GPRMC,123519,A*07".toList).length ∧
          (nmea_tokens "$GPRMC,123519,A*07".toList).getD 2 [] ≠ [] ∧
          ((nmea_tokens "$GPRMC,123519,A*07".toList).getD 2 []).headD
            (Char.ofNat 0) = 'A'
       then true
       else ({ has_fix := false, fix_quality := 0, sats := 0, lat_deg := 0,
               lon_deg := 0, time_utc := [] } : nmea_info_t).has_fix) :=
  nmea_rmc_fix_iff_token_A "$GPRMC,123519,A*07".toList
    { has_fix := false, fix_quality := 0, sats := 0, lat_deg := 0,
      lon_deg := 0, time_utc := [] } (by decide) (by decide)

end PacRF
